import Mathlib

/-!
Verification of the investment-tracker import pipeline
(`src/import_to_supabase.py`) against its specification.

The script is embedded shallowly:
* Python strings are modelled as `List Char` (`Str`);
* a cell of the loaded table is a `Val` (Python `None`, `NaN`, `str`, or a
  number); numbers are modelled as rationals;
* the remote Supabase store is modelled by an explicit `Remote` state holding
  the `stocks` rows together with the next identifier the store will assign;
* each pass over the dataframe is a fold of a per-row step function; the
  remote calls a step issues are recorded in an event log.
-/

set_option autoImplicit false

namespace ImportPipeline

/-- Python strings, modelled as lists of characters. -/
abbrev Str := List Char

/-- Character list of a Lean string literal (used to write fixtures). -/
def chars (s : String) : Str := s.data

/-- A cell of the dataframe: Python `None`, pandas `NaN`, a string, or a
number (modelled as a rational, covering ints and floats of the CSV). -/
inductive Val where
  | none
  | nan
  | str (s : Str)
  | num (q : Rat)
deriving DecidableEq

/-- Python truthiness of a cell (`not x` in the script tests this):
`None` is falsy, `NaN` is truthy, a string is truthy iff nonempty,
a number is truthy iff nonzero. -/
def truthy : Val → Bool
  | .none => false
  | .nan => true
  | .str s => !s.isEmpty
  | .num q => q != 0

/-- `nan_to_none` of the script: `if pd.isna(x): return None; return x`. -/
def nan_to_none : Val → Val
  | .nan => .none
  | v => v

/-- Python `str.split(sep)` for a one-character separator: splits at every
occurrence of `sep`; `"".split(sep) == [""]`. -/
def pySplit (sep : Char) : Str → List Str
  | [] => [[]]
  | c :: rest =>
    match pySplit sep rest with
    | [] => [[]]
    | s :: ss => if c = sep then [] :: s :: ss else (c :: s) :: ss

/-- Python `str.upper()`, restricted to ASCII-style per-character uppercasing. -/
def pyUpper (s : Str) : Str := s.map Char.toUpper

/-- `split_ticker_exchange` of the script, on a string argument:
`if ticker_str and '.' in ticker_str: parts = ticker_str.split('.');
return parts[0], parts[1]` and otherwise `return ticker_str, ''`. -/
def split_ticker_exchange (s : Str) : Str × Str :=
  if s ≠ [] ∧ '.' ∈ s then
    ((pySplit '.' s).getD 0 [], (pySplit '.' s).getD 1 [])
  else (s, [])

/-- `split_ticker_exchange` applied to a raw `Ticker` cell. A `None` (or
otherwise falsy) cell fails the `if ticker_str and ...` guard and is returned
unchanged with an empty exchange. (The `Ticker` column holds strings or
`None` after the dataframe's NaN-to-None conversion, so the non-string
branches only make the function total.) -/
def splitTickerVal : Val → Val × Str
  | .str s =>
    let p := split_ticker_exchange s
    (.str p.1, p.2)
  | v => (v, [])

/-- One row of the loaded dataframe, after `df.where(pd.notnull(df), None)`
replaced every NaN by `None`. Field names follow the CSV columns the script
reads: Ticker, Holding, Holding Currency, Type, Date, Quantity, Price,
Value (GBP), Exchange Rate, Fee, Fee Currency, Local Value, Currency Pair. -/
structure Row where
  ticker : Val
  holding : Val
  holdingCurrency : Val
  type : Val
  date : Val
  quantity : Val
  price : Val
  valueGBP : Val
  exchangeRate : Val
  fee : Val
  feeCurrency : Val
  localValue : Val
  currencyPair : Val
deriving DecidableEq

/-- The key of the in-memory `stocks` dict: the split (ticker, exchange). -/
abbrev Key := Val × Str

/-- The key the script computes for a row at the top of both loops. -/
def rowKey (row : Row) : Key := splitTickerVal row.ticker

/-- The `stock_data` dict built in Step 1 of the script. -/
structure StockData where
  ticker : Val
  exchange : Str
  name : Val
  currency : Val
deriving DecidableEq

/-- `stock_data` as a function of the row (fields exactly as in the script:
the split ticker and exchange, `nan_to_none` of Holding and of
Holding Currency). -/
def stockDataOf (row : Row) : StockData :=
  { ticker := (rowKey row).1
    exchange := (rowKey row).2
    name := nan_to_none row.holding
    currency := nan_to_none row.holdingCurrency }

/-- The remote `stocks` table: rows `(id, data)` in insertion order, plus the
identifier the store will assign to the next inserted row. -/
structure Remote where
  rows : List (Nat × StockData)
  nextId : Nat
deriving DecidableEq

/-- The remote query
`supabase.table('stocks').select('id').eq('ticker', t).eq('exchange', e)`:
the identifier of the first stored row matching both columns, if any. -/
def Remote.findStock (r : Remote) (t : Val) (e : Str) : Option Nat :=
  (r.rows.find? (fun p => p.2.ticker = t ∧ p.2.exchange = e)).map (fun p => p.1)

/-- A remote call issued by the stocks loop: a select on (ticker, exchange)
or an insert of a `stock_data` record. -/
inductive SEvent where
  | select (t : Val) (e : Str)
  | insert (d : StockData)
deriving DecidableEq

/-- Lookup in the in-memory `stocks` dict (modelled as an association list;
keys are inserted at most once, so first-match lookup is the dict lookup). -/
def lookupKey : List (Key × Nat) → Key → Option Nat
  | [], _ => Option.none
  | p :: rest, k => if k = p.1 then Option.some p.2 else lookupKey rest k

/-- State of the Step 1 loop: the in-memory mapping, the remote store, and
the log of remote calls issued so far. -/
structure S1 where
  stocks : List (Key × Nat)
  remote : Remote
  log : List SEvent
deriving DecidableEq

/-- One iteration of the Step 1 loop (`# Step 1: Insert unique stocks`):
split the ticker, null-coalesce the name, skip if either is falsy; if the
key is not yet in the dict, select the stock remotely, insert it when the
select comes back empty, and record the identifier in the dict. -/
def step1 (s : S1) (row : Row) : S1 :=
  let tex := splitTickerVal row.ticker
  let name := nan_to_none row.holding
  if !truthy tex.1 || !truthy name then s
  else if (lookupKey s.stocks tex).isSome then s
  else
    match s.remote.findStock tex.1 tex.2 with
    | Option.some i =>
      { stocks := s.stocks ++ [(tex, i)]
        remote := s.remote
        log := s.log ++ [SEvent.select tex.1 tex.2] }
    | Option.none =>
      { stocks := s.stocks ++ [(tex, s.remote.nextId)]
        remote := { rows := s.remote.rows ++ [(s.remote.nextId, stockDataOf row)]
                    nextId := s.remote.nextId + 1 }
        log := s.log ++ [SEvent.select tex.1 tex.2, SEvent.insert (stockDataOf row)] }

/-- The whole Step 1 loop, starting from an empty dict and log over the
given initial remote store. -/
def pass1 (remote0 : Remote) (df : List Row) : S1 :=
  df.foldl step1 { stocks := [], remote := remote0, log := [] }

/-- The `trade_data` dict inserted in Step 2 of the script. -/
structure TradeData where
  stock_id : Nat
  trade_type : Val
  trade_date : Str
  quantity : Val
  price_per_share : Val
  price_currency : Val
  gbp_value : Val
  fx_rate : Val
  fee : Val
  fee_currency : Val
  local_value : Val
  currency_pair : Val
  notes : Str
deriving DecidableEq

/-- State of the Step 2 loop: the trades inserted so far, in order. -/
structure S2 where
  inserts : List TradeData
deriving DecidableEq

/-- Parse a natural number from a nonempty all-digit string. -/
def parseNatStr (s : Str) : Option Nat :=
  if s ≠ [] ∧ s.all Char.isDigit then
    Option.some (s.foldl (fun acc c => acc * 10 + (c.toNat - 48)) 0)
  else Option.none

/-- Modelled from the spec: `pd.to_datetime(x, dayfirst=True)` on the Date
column, whose values are day-first slash-separated dates (section 6 of the
spec: "Dates in the Date column are day-first formatted"). Parses
`"DD/MM/YYYY"` into (day, month, year), taking the first field as the day
and the second as the month; anything else fails (and in the script a parse
failure raises and aborts the run). -/
def parseDayFirst (s : Str) : Option (Nat × Nat × Nat) :=
  match pySplit '/' s with
  | [d, m, y] =>
    match parseNatStr d, parseNatStr m, parseNatStr y with
    | Option.some dn, Option.some mn, Option.some yn =>
      if 1 ≤ dn ∧ dn ≤ 31 ∧ 1 ≤ mn ∧ mn ≤ 12 then Option.some (dn, mn, yn)
      else Option.none
    | _, _, _ => Option.none
  | _ => Option.none

/-- Decimal digits of `n`, zero-padded on the left to width `w`
(as `strftime` zero-pads `%Y`, `%m`, `%d`). -/
def padDigits (w n : Nat) : Str :=
  List.replicate (w - (Nat.toDigits 10 n).length) '0' ++ Nat.toDigits 10 n

/-- `strftime('%Y-%m-%d')` of a (year, month, day). -/
def formatYMD (y m d : Nat) : Str :=
  padDigits 4 y ++ '-' :: padDigits 2 m ++ '-' :: padDigits 2 d

/-- `pd.to_datetime(trade_date, dayfirst=True).strftime('%Y-%m-%d')` on a
truthy cell: defined for day-first date strings, failing otherwise
(a failure aborts the run in the script). -/
def toDatetimeFmt : Val → Option Str
  | .str s => (parseDayFirst s).map (fun t => formatYMD t.2.2 t.2.1 t.1)
  | _ => Option.none

/-- Python `.upper()` on a cell; only string cells reach it in the script
(the Type column), other constructors are returned unchanged for totality. -/
def upperVal : Val → Val
  | .str s => .str (pyUpper s)
  | v => v

/-- One iteration of the Step 2 loop (`# Step 2: Insert trades`): recompute
the key, null-coalesce the required fields, skip if any is falsy; look the
key up in the dict built by Step 1 and skip when the result is falsy
(`if not stock_id: continue` — absent, or identifier 0); otherwise build
`trade_data` and insert it. A date that fails to parse aborts the run. -/
def step2 (stocks : List (Key × Nat)) (s : S2) (row : Row) : Except Str S2 :=
  let tex := splitTickerVal row.ticker
  let name := nan_to_none row.holding
  let trade_type := nan_to_none row.type
  let trade_date := nan_to_none row.date
  let quantity := nan_to_none row.quantity
  if !truthy tex.1 || !truthy name || !truthy trade_type ||
      !truthy trade_date || !truthy quantity then
    Except.ok s
  else
    match lookupKey stocks tex with
    | Option.none => Except.ok s
    | Option.some stock_id =>
      if stock_id = 0 then Except.ok s
      else
        match toDatetimeFmt trade_date with
        | Option.none => Except.error (chars "to_datetime failed")
        | Option.some ds =>
          Except.ok
            { inserts := s.inserts ++ [{
                stock_id := stock_id
                trade_type := upperVal trade_type
                trade_date := ds
                quantity := quantity
                price_per_share := nan_to_none row.price
                price_currency := nan_to_none row.holdingCurrency
                gbp_value := nan_to_none row.valueGBP
                fx_rate := nan_to_none row.exchangeRate
                fee := nan_to_none row.fee
                fee_currency := nan_to_none row.feeCurrency
                local_value := nan_to_none row.localValue
                currency_pair := nan_to_none row.currencyPair
                notes := [] }] }

/-- The whole Step 2 loop over the dataframe, given the dict built by
Step 1; an error (date parse failure) aborts the remaining rows. -/
def pass2 (stocks : List (Key × Nat)) (df : List Row) : Except Str S2 :=
  df.foldlM (step2 stocks) { inserts := [] }

/-- The whole script after loading: Step 1 then Step 2 over the same rows. -/
def runImport (remote0 : Remote) (df : List Row) : S1 × Except Str S2 :=
  let s1 := pass1 remote0 df
  (s1, pass2 s1.stocks df)

/-- The required-field check of the Step 1 loop
(`if not ticker or not name: continue`), as a predicate on the row. -/
def isValid1 (row : Row) : Bool :=
  truthy (rowKey row).1 && truthy (nan_to_none row.holding)

/-- Number of remote stock inserts in a log whose record carries the given
(ticker, exchange) key. -/
def countInsertsFor (k : Key) (log : List SEvent) : Nat :=
  log.countP (fun e =>
    match e with
    | SEvent.insert d => decide ((d.ticker, d.exchange) = k)
    | _ => false)

/-- The first row of the dataframe that passes the Step 1 required-field
check and normalizes to the given key. -/
def firstValidFor (k : Key) (df : List Row) : Option Row :=
  df.find? (fun row => isValid1 row && decide (rowKey row = k))

/-- A remote store whose assigned identifiers are nonzero (Supabase primary
keys start at 1), including the ones it will assign next. -/
def wellFormedRemote (r : Remote) : Prop :=
  1 ≤ r.nextId ∧ ∀ p ∈ r.rows, 1 ≤ p.1

/-- The invariant `wellFormedRemote`, extended to the loop state: every
identifier recorded in the in-memory dict is nonzero as well. -/
def wellFormedS1 (s : S1) : Prop :=
  1 ≤ s.remote.nextId ∧ (∀ p ∈ s.remote.rows, 1 ≤ p.1) ∧ ∀ e ∈ s.stocks, 1 ≤ e.2

/-- Loop invariant of Step 1: every key has been remotely inserted at most
once, and a key that has been inserted is recorded in the in-memory dict. -/
def insertOnceInv (s : S1) : Prop :=
  ∀ k : Key, countInsertsFor k s.log ≤ 1 ∧
    (1 ≤ countInsertsFor k s.log → (lookupKey s.stocks k).isSome = true)

/-- A row fixture: the seven leading CSV cells, all other cells null. -/
def mkRow (t hld cur ty dt qty pr : Val) : Row :=
  ⟨t, hld, cur, ty, dt, qty, pr, Val.none, Val.none, Val.none, Val.none,
    Val.none, Val.none⟩

/-- Fixture: the spec's Gazprom scenario row. -/
def rowGaz : Row :=
  mkRow (.str (chars "OGZD.LSE")) (.str (chars "Gazprom")) (.str (chars "USD"))
    (.str (chars "buy")) (.str (chars "05/03/2020")) (.num 10) (.num 5)

/-- Fixture: a second row with the Gazprom key but different name, currency
and trade fields. -/
def rowGaz2 : Row :=
  mkRow (.str (chars "OGZD.LSE")) (.str (chars "Gazprom PJSC"))
    (.str (chars "GBP")) (.str (chars "sell")) (.str (chars "06/04/2020"))
    (.num 3) (.num 6)

/-- Fixture: the spec's dotless-ticker scenario row. -/
def rowCash : Row :=
  mkRow (.str (chars "CASH")) (.str (chars "Cash GBP")) Val.none
    (.str (chars "deposit")) (.str (chars "01/01/2021")) (.num 100) Val.none

/-- Fixture: a row whose Quantity is present but zero. -/
def rowQ0 : Row :=
  mkRow (.str (chars "CASH")) (.str (chars "Cash GBP")) Val.none
    (.str (chars "buy")) (.str (chars "01/01/2021")) (.num 0) Val.none

/-- Fixture: a row with a ticker but a null Holding cell. -/
def rowNoName : Row :=
  mkRow (.str (chars "XYZ")) Val.none Val.none (.str (chars "buy"))
    (.str (chars "01/01/2021")) (.num 1) Val.none

/-- Fixture: an empty remote store assigning identifiers from 1. -/
def remoteEmpty : Remote := ⟨[], 1⟩

/-- The trades a run inserted, when the run did not abort. -/
def insertedTrades (r : S1 × Except Str S2) : Option (List TradeData) :=
  (Except.toOption r.2).map S2.inserts

/-- Fixture: the trade record the pipeline builds for `rowGaz` with stock
identifier 1. -/
def tdGaz : TradeData :=
  { stock_id := 1
    trade_type := Val.str (chars "BUY")
    trade_date := chars "2020-03-05"
    quantity := Val.num 10
    price_per_share := Val.num 5
    price_currency := Val.str (chars "USD")
    gbp_value := Val.none
    fx_rate := Val.none
    fee := Val.none
    fee_currency := Val.none
    local_value := Val.none
    currency_pair := Val.none
    notes := [] }

/-! ### Lemmas about the ticker split -/

theorem pySplit_ne_nil (sep : Char) (s : Str) : pySplit sep s ≠ [] := by
  cases s with
  | nil => simp [pySplit]
  | cons c rest =>
    cases h : pySplit sep rest with
    | nil => simp [pySplit, h]
    | cons a as => by_cases hc : c = sep <;> simp [pySplit, h, hc]

theorem pySplit_append_sep (t rest : Str) (ht : '.' ∉ t) :
    pySplit '.' (t ++ '.' :: rest) = t :: pySplit '.' rest := by
  induction t with
  | nil =>
    simp only [List.nil_append, pySplit]
    cases h : pySplit '.' rest with
    | nil => exact absurd h (pySplit_ne_nil '.' rest)
    | cons a as => simp
  | cons c t' ih =>
    have hc : ¬ c = '.' := fun h => ht (by simp [h])
    have ht' : '.' ∉ t' := fun h => ht (List.mem_cons_of_mem c h)
    have key := ih ht'
    rw [List.cons_append, pySplit, key]
    simp [hc]

theorem pySplit_headD_takeWhile (rest : Str) :
    (pySplit '.' rest).headD [] = rest.takeWhile (fun c => c != '.') := by
  induction rest with
  | nil => simp [pySplit]
  | cons c r ih =>
    simp only [pySplit, List.takeWhile_cons]
    cases h : pySplit '.' r with
    | nil => exact absurd h (pySplit_ne_nil '.' r)
    | cons a as =>
      rw [h] at ih
      by_cases hc : c = '.'
      · subst hc
        simp at ih ⊢
      · simp [hc] at ih ⊢
        exact ih

theorem split_ticker_exchange_append (t rest : Str) (ht : '.' ∉ t) :
    split_ticker_exchange (t ++ '.' :: rest) =
      (t, rest.takeWhile (fun c => c != '.')) := by
  have hmem : '.' ∈ t ++ '.' :: rest :=
    List.mem_append_right t (List.mem_cons_self _ _)
  have hne : t ++ '.' :: rest ≠ [] := by simp
  rw [split_ticker_exchange, if_pos ⟨hne, hmem⟩,
    pySplit_append_sep t rest ht]
  have hh := pySplit_headD_takeWhile rest
  cases h : pySplit '.' rest with
  | nil => exact absurd h (pySplit_ne_nil '.' rest)
  | cons a as =>
    rw [h] at hh
    simp only [List.headD_cons] at hh
    simp [hh]

theorem takeWhile_no_dot (e : Str) (he : '.' ∉ e) :
    e.takeWhile (fun c => c != '.') = e := by
  induction e with
  | nil => rfl
  | cons c r ih =>
    have hc : ¬ c = '.' := fun h => he (by simp [h])
    have hr : '.' ∉ r := fun h => he (List.mem_cons_of_mem c h)
    simp [List.takeWhile_cons, hc, ih hr]

theorem count_one_decomp (s : Str) (h : s.count '.' = 1) :
    ∃ t e, s = t ++ '.' :: e ∧ '.' ∉ t ∧ '.' ∉ e := by
  induction s with
  | nil => simp [List.count_nil] at h
  | cons c rest ih =>
    rw [List.count_cons] at h
    by_cases hc : c = '.'
    · subst hc
      simp only [beq_self_eq_true, if_true] at h
      have h0 : List.count '.' rest = 0 := by omega
      exact ⟨[], rest, rfl, by simp, List.count_eq_zero.mp h0⟩
    · have hb : (c == '.') = false := beq_eq_false_iff_ne.mpr hc
      rw [hb] at h
      simp only [Bool.false_eq_true, if_false, Nat.add_zero] at h
      obtain ⟨t, e, rfl, ht, he⟩ := ih h
      refine ⟨c :: t, e, rfl, ?_, he⟩
      intro hmem
      rcases List.mem_cons.mp hmem with h1 | h1
      · exact hc h1.symm
      · exact ht h1

/-! ### Claims C4, C5, C6: the ticker split -/

/-- Claim C4, counterexample: on the ticker string "A.B.C" (which contains
a '.'), `split_ticker_exchange` does not return the entire substring
"B.C" after the first '.' as the exchange; it returns only "B". -/
theorem c4_split_claim_cex :
    ¬ split_ticker_exchange (chars "A.B.C") = (chars "A", chars "B.C") ∧
    split_ticker_exchange (chars "A.B.C") = (chars "A", chars "B") := by
  constructor
  · decide
  · decide

/-- Claim C4 (amended): for every ticker string containing at least one '.'
(written as a dot-free part `t` followed by '.' and a remainder `rest`),
`split_ticker_exchange` returns the substring before the first '.' as the
ticker, and as the exchange only the segment of the remainder up to the
next '.' — not the entire remainder. -/
theorem c4_split_on_first_dot (t rest : Str) (ht : '.' ∉ t) :
    split_ticker_exchange (t ++ '.' :: rest) =
      (t, rest.takeWhile (fun c => c != '.')) :=
  split_ticker_exchange_append t rest ht

/-- Witness for C4's amended theorem at "A" ++ "." ++ "B.C". -/
theorem c4_split_on_first_dot_witness :
    '.' ∉ chars "A" ∧
    split_ticker_exchange (chars "A" ++ '.' :: chars "B.C") =
      (chars "A", (chars "B.C").takeWhile (fun c => c != '.')) :=
  ⟨by decide, c4_split_on_first_dot (chars "A") (chars "B.C") (by decide)⟩

/-- Claim C5: for every ticker string containing exactly one '.',
`split_ticker_exchange` returns a pair whose parts, rejoined around a '.',
reconstruct the original string. -/
theorem c5_split_roundtrip (s : Str) (h : s.count '.' = 1) :
    (split_ticker_exchange s).1 ++ '.' :: (split_ticker_exchange s).2 = s := by
  obtain ⟨t, e, rfl, ht, he⟩ := count_one_decomp s h
  rw [split_ticker_exchange_append t e ht]
  simp [takeWhile_no_dot e he]

/-- Witness for C5 at "OGZD.LSE". -/
theorem c5_split_roundtrip_witness :
    (chars "OGZD.LSE").count '.' = 1 ∧
    (split_ticker_exchange (chars "OGZD.LSE")).1 ++
      '.' :: (split_ticker_exchange (chars "OGZD.LSE")).2 = chars "OGZD.LSE" :=
  ⟨by decide, c5_split_roundtrip (chars "OGZD.LSE") (by decide)⟩

/-- Claim C6: for every ticker string containing no '.',
`split_ticker_exchange` returns the string unchanged with an empty
exchange code. -/
theorem c6_split_no_dot (s : Str) (h : '.' ∉ s) :
    split_ticker_exchange s = (s, []) := by
  rw [split_ticker_exchange, if_neg]
  intro hh
  exact h hh.2

/-- Witness for C6 at "CASH". -/
theorem c6_split_no_dot_witness :
    '.' ∉ chars "CASH" ∧ split_ticker_exchange (chars "CASH") = (chars "CASH", []) :=
  ⟨by decide, c6_split_no_dot (chars "CASH") (by decide)⟩

/-! ### Lemmas about the in-memory dict and the Step 1 loop -/

theorem lookupKey_append (m1 m2 : List (Key × Nat)) (k : Key) :
    lookupKey (m1 ++ m2) k =
      match lookupKey m1 k with
      | Option.some v => Option.some v
      | Option.none => lookupKey m2 k := by
  induction m1 with
  | nil => simp [lookupKey]
  | cons p m1 ih =>
    by_cases h : k = p.1 <;> simp [lookupKey, h, ih]

theorem lookupKey_some_mem (m : List (Key × Nat)) (k : Key) (v : Nat)
    (h : lookupKey m k = Option.some v) : (k, v) ∈ m := by
  induction m with
  | nil => simp [lookupKey] at h
  | cons p m ih =>
    by_cases hk : k = p.1
    · rw [lookupKey, if_pos hk] at h
      have hv : p.2 = v := Option.some.inj h
      have : (k, v) = p := by
        rw [hk, ← hv]
      rw [this]
      exact List.mem_cons_self p m
    · rw [lookupKey, if_neg hk] at h
      exact List.mem_cons_of_mem p (ih h)

/-- Case analysis of one Step 1 iteration: either the row is skipped or a
cache hit leaves the state unchanged, or the key is new and the state is
extended — by a select alone when the stock exists remotely, or by a select
followed by exactly one insert when it does not. -/
theorem step1_characterization (s : S1) (row : Row) :
    (step1 s row = s ∧
      (isValid1 row = false ∨ (lookupKey s.stocks (rowKey row)).isSome = true)) ∨
    (isValid1 row = true ∧ (lookupKey s.stocks (rowKey row)).isSome = false ∧
      ((∃ i, s.remote.findStock (rowKey row).1 (rowKey row).2 = Option.some i ∧
          step1 s row =
            { stocks := s.stocks ++ [(rowKey row, i)], remote := s.remote,
              log := s.log ++ [SEvent.select (rowKey row).1 (rowKey row).2] }) ∨
        (s.remote.findStock (rowKey row).1 (rowKey row).2 = Option.none ∧
          step1 s row =
            { stocks := s.stocks ++ [(rowKey row, s.remote.nextId)],
              remote := { rows := s.remote.rows ++ [(s.remote.nextId, stockDataOf row)],
                          nextId := s.remote.nextId + 1 },
              log := s.log ++ [SEvent.select (rowKey row).1 (rowKey row).2,
                               SEvent.insert (stockDataOf row)] }))) := by
  have hval : (!truthy (splitTickerVal row.ticker).1 ||
      !truthy (nan_to_none row.holding)) = !(isValid1 row) := by
    simp [isValid1, rowKey]
  cases hv : isValid1 row with
  | false =>
    left
    refine ⟨?_, Or.inl rfl⟩
    simp only [step1, hval, hv, Bool.not_false, if_true]
  | true =>
    cases hl : (lookupKey s.stocks (rowKey row)).isSome with
    | true =>
      left
      refine ⟨?_, Or.inr rfl⟩
      simp only [rowKey] at hl
      simp only [step1, hval, hv, Bool.not_true, Bool.false_eq_true, if_false, hl,
        if_true]
    | false =>
      right
      refine ⟨rfl, rfl, ?_⟩
      simp only [rowKey] at hl
      cases hf : s.remote.findStock (rowKey row).1 (rowKey row).2 with
      | some i =>
        left
        refine ⟨i, rfl, ?_⟩
        simp only [rowKey] at hf
        simp only [step1, hval, hv, Bool.not_true, Bool.false_eq_true, if_false, hl,
          hf, rowKey]
      | none =>
        right
        refine ⟨rfl, ?_⟩
        simp only [rowKey] at hf
        simp only [step1, hval, hv, Bool.not_true, Bool.false_eq_true, if_false, hl,
          hf, rowKey]

theorem option_eq_none_of_isSome_false {α : Type} (o : Option α)
    (h : o.isSome = false) : o = Option.none := by
  cases o
  · rfl
  · simp at h

theorem lookup_append_isSome (m : List (Key × Nat)) (x : Key × Nat) (k : Key)
    (h : (lookupKey m k).isSome = true) :
    (lookupKey (m ++ [x]) k).isSome = true := by
  obtain ⟨v, hv⟩ := Option.isSome_iff_exists.mp h
  rw [lookupKey_append, hv]
  rfl

theorem step1_stocks_cases (s : S1) (row : Row) :
    (step1 s row).stocks = s.stocks ∨
    ∃ i, (step1 s row).stocks = s.stocks ++ [(rowKey row, i)] := by
  rcases step1_characterization s row with ⟨he, _⟩ | ⟨_, _, ⟨i, _, he⟩ | ⟨_, he⟩⟩
  · exact Or.inl (by rw [he])
  · exact Or.inr ⟨i, by rw [he]⟩
  · exact Or.inr ⟨s.remote.nextId, by rw [he]⟩

theorem step1_lookup_mono (s : S1) (row : Row) (k : Key)
    (h : (lookupKey s.stocks k).isSome = true) :
    (lookupKey (step1 s row).stocks k).isSome = true := by
  rcases step1_stocks_cases s row with he | ⟨i, he⟩
  · rw [he]; exact h
  · rw [he]; exact lookup_append_isSome s.stocks _ k h

theorem foldl_lookup_mono (df : List Row) (s : S1) (k : Key)
    (h : (lookupKey s.stocks k).isSome = true) :
    (lookupKey (df.foldl step1 s).stocks k).isSome = true := by
  induction df generalizing s with
  | nil => exact h
  | cons r rest ih => exact ih (step1 s r) (step1_lookup_mono s r k h)

theorem step1_hit (s : S1) (row : Row)
    (h : (lookupKey s.stocks (rowKey row)).isSome = true) : step1 s row = s := by
  rcases step1_characterization s row with ⟨he, _⟩ | ⟨_, hl, _⟩
  · exact he
  · rw [hl] at h; cases h

theorem step1_self_mem (s : S1) (row : Row) (hv : isValid1 row = true) :
    (lookupKey (step1 s row).stocks (rowKey row)).isSome = true := by
  rcases step1_characterization s row with ⟨he, hd | hhit⟩ | ⟨_, hl, hcases⟩
  · rw [hv] at hd; cases hd
  · rw [he]; exact hhit
  · have hnone : lookupKey s.stocks (rowKey row) = Option.none :=
      option_eq_none_of_isSome_false _ hl
    rcases hcases with ⟨i, _, he⟩ | ⟨_, he⟩ <;>
      rw [he, lookupKey_append, hnone] <;> simp [lookupKey]

theorem countInsertsFor_append (k : Key) (l1 l2 : List SEvent) :
    countInsertsFor k (l1 ++ l2) =
      countInsertsFor k l1 + countInsertsFor k l2 := by
  simp [countInsertsFor, List.countP_append]

theorem countInsertsFor_select (k : Key) (t : Val) (e : Str) :
    countInsertsFor k [SEvent.select t e] = 0 := by
  simp [countInsertsFor, List.countP_cons]

theorem countInsertsFor_two (row : Row) (k : Key) :
    countInsertsFor k [SEvent.select (rowKey row).1 (rowKey row).2,
      SEvent.insert (stockDataOf row)] = if rowKey row = k then 1 else 0 := by
  have hsd : ((stockDataOf row).ticker, (stockDataOf row).exchange) = rowKey row := rfl
  by_cases hk : rowKey row = k <;>
    simp [countInsertsFor, List.countP_cons, hsd, hk]

theorem step1_insertOnceInv (s : S1) (row : Row) (h : insertOnceInv s) :
    insertOnceInv (step1 s row) := by
  rcases step1_characterization s row with ⟨he, _⟩ | ⟨hv, hl, ⟨i, hf, he⟩ | ⟨hf, he⟩⟩
  · rw [he]; exact h
  · intro k
    rw [he]
    simp only [countInsertsFor_append, countInsertsFor_select, Nat.add_zero]
    exact ⟨(h k).1, fun hc => lookup_append_isSome _ _ _ ((h k).2 hc)⟩
  · intro k
    rw [he]
    simp only [countInsertsFor_append, countInsertsFor_two]
    have hnone : lookupKey s.stocks (rowKey row) = Option.none :=
      option_eq_none_of_isSome_false _ hl
    by_cases hk : rowKey row = k
    · rw [if_pos hk, ← hk]
      have h0 : countInsertsFor (rowKey row) s.log = 0 := by
        by_contra hc
        have h1 : 1 ≤ countInsertsFor (rowKey row) s.log :=
          Nat.one_le_iff_ne_zero.mpr hc
        have h2 := (h (rowKey row)).2 h1
        rw [h2] at hl; cases hl
      rw [h0]
      refine ⟨by omega, fun _ => ?_⟩
      rw [lookupKey_append, hnone]
      simp [lookupKey]
    · rw [if_neg hk, Nat.add_zero]
      exact ⟨(h k).1, fun hc => lookup_append_isSome _ _ _ ((h k).2 hc)⟩

theorem foldl_insertOnceInv (df : List Row) :
    ∀ s : S1, insertOnceInv s → insertOnceInv (df.foldl step1 s) := by
  induction df with
  | nil => exact fun s h => h
  | cons r rest ih => exact fun s h => ih (step1 s r) (step1_insertOnceInv s r h)

theorem pass1_insertOnceInv (remote0 : Remote) (df : List Row) :
    insertOnceInv (pass1 remote0 df) := by
  apply foldl_insertOnceInv
  intro k
  simp [countInsertsFor]

theorem findStock_some_mem (r : Remote) (t : Val) (e : Str) (i : Nat)
    (h : r.findStock t e = Option.some i) : ∃ p ∈ r.rows, p.1 = i := by
  unfold Remote.findStock at h
  obtain ⟨p, hp1, hp2⟩ := Option.map_eq_some'.mp h
  exact ⟨p, List.mem_of_find?_eq_some hp1, hp2⟩

theorem step1_wellFormed (s : S1) (row : Row) (h : wellFormedS1 s) :
    wellFormedS1 (step1 s row) := by
  obtain ⟨h1, h2, h3⟩ := h
  rcases step1_characterization s row with ⟨he, _⟩ | ⟨_, _, ⟨i, hf, he⟩ | ⟨hf, he⟩⟩
  · rw [he]; exact ⟨h1, h2, h3⟩
  · rw [he]
    refine ⟨h1, h2, fun e he' => ?_⟩
    rcases List.mem_append.mp he' with hm | hm
    · exact h3 e hm
    · obtain ⟨p, hp, hpi⟩ := findStock_some_mem s.remote _ _ i hf
      rw [List.mem_singleton.mp hm]
      exact hpi ▸ h2 p hp
  · rw [he]
    refine ⟨Nat.le_succ_of_le h1, fun p hp => ?_, fun e he' => ?_⟩
    · rcases List.mem_append.mp hp with hm | hm
      · exact h2 p hm
      · rw [List.mem_singleton.mp hm]; exact h1
    · rcases List.mem_append.mp he' with hm | hm
      · exact h3 e hm
      · rw [List.mem_singleton.mp hm]; exact h1

theorem foldl_wellFormed (df : List Row) :
    ∀ s : S1, wellFormedS1 s → wellFormedS1 (df.foldl step1 s) := by
  induction df with
  | nil => exact fun s h => h
  | cons r rest ih => exact fun s h => ih (step1 s r) (step1_wellFormed s r h)

theorem pass1_wellFormed (remote0 : Remote) (df : List Row)
    (hwf : wellFormedRemote remote0) : wellFormedS1 (pass1 remote0 df) := by
  apply foldl_wellFormed
  exact ⟨hwf.1, hwf.2, by simp⟩

theorem foldl_mem_key (df : List Row) (row : Row) (hv : isValid1 row = true) :
    ∀ s : S1, row ∈ df →
      (lookupKey (df.foldl step1 s).stocks (rowKey row)).isSome = true := by
  induction df with
  | nil => intro s h; cases h
  | cons r rest ih =>
    intro s h
    rcases List.mem_cons.mp h with heq | hmem
    · subst heq
      exact foldl_lookup_mono rest (step1 s row) (rowKey row)
        (step1_self_mem s row hv)
    · exact ih (step1 s r) hmem

/-! ### Claims C1, C7, C8: the Stock Deduplicator -/

/-- Claim C1: over any run of the stocks loop, each (ticker, exchange) key
is remotely inserted at most once; a row whose key is already in the
in-memory dict leaves the loop state — including the remote-call log —
completely unchanged (no remote call on a cache hit); and any two rows
whose tickers normalize to the same key resolve to the identical stock
identifier in the mapping the loop builds. -/
theorem c1_stock_dedup (remote0 : Remote) (df : List Row) (k : Key) (s : S1)
    (row r1 r2 : Row)
    (hhit : (lookupKey s.stocks (rowKey row)).isSome = true)
    (hk : rowKey r1 = rowKey r2) :
    countInsertsFor k (pass1 remote0 df).log ≤ 1 ∧
    step1 s row = s ∧
    lookupKey (pass1 remote0 df).stocks (rowKey r1) =
      lookupKey (pass1 remote0 df).stocks (rowKey r2) :=
  ⟨(pass1_insertOnceInv remote0 df k).1, step1_hit s row hhit, by rw [hk]⟩

/-- Witness for C1: a two-row dataframe sharing the Gazprom key, and a
cache-hit step on the CASH key. -/
theorem c1_stock_dedup_witness :
    (lookupKey [((Val.str (chars "CASH"), []), 1)] (rowKey rowCash)).isSome = true ∧
    rowKey rowGaz = rowKey rowGaz2 ∧
    (countInsertsFor (rowKey rowGaz) (pass1 remoteEmpty [rowGaz, rowGaz2]).log ≤ 1 ∧
      step1 ⟨[((Val.str (chars "CASH"), []), 1)], remoteEmpty, []⟩ rowCash =
        ⟨[((Val.str (chars "CASH"), []), 1)], remoteEmpty, []⟩ ∧
      lookupKey (pass1 remoteEmpty [rowGaz, rowGaz2]).stocks (rowKey rowGaz) =
        lookupKey (pass1 remoteEmpty [rowGaz, rowGaz2]).stocks (rowKey rowGaz2)) :=
  ⟨by decide, by decide,
    c1_stock_dedup remoteEmpty [rowGaz, rowGaz2] (rowKey rowGaz)
      ⟨[((Val.str (chars "CASH"), []), 1)], remoteEmpty, []⟩ rowCash rowGaz rowGaz2
      (by decide) (by decide)⟩

/-- Claim C7: over a remote store whose identifiers are nonzero, every row
of the dataframe with truthy ticker and name — in particular every row that
passes the trades loop's required-field check — finds its key in the dict
built by the stocks loop, with a non-falsy identifier; hence the
`if not stock_id: continue` skip branch of the trades loop is unreachable
for such rows. -/
theorem c7_lookup_unreachable_skip (remote0 : Remote) (df : List Row) (row : Row)
    (hwf : wellFormedRemote remote0) (hrow : row ∈ df)
    (hticker : truthy (rowKey row).1 = true)
    (hname : truthy (nan_to_none row.holding) = true) :
    lookupKey (pass1 remote0 df).stocks (rowKey row) ≠ Option.none ∧
    lookupKey (pass1 remote0 df).stocks (rowKey row) ≠ Option.some 0 := by
  have hv : isValid1 row = true := by simp [isValid1, hticker, hname]
  have hsome : (lookupKey (pass1 remote0 df).stocks (rowKey row)).isSome = true :=
    foldl_mem_key df row hv { stocks := [], remote := remote0, log := [] } hrow
  obtain ⟨v, hveq⟩ := Option.isSome_iff_exists.mp hsome
  have hwfS : wellFormedS1 (pass1 remote0 df) := pass1_wellFormed remote0 df hwf
  have hvpos : 1 ≤ v :=
    hwfS.2.2 (rowKey row, v) (lookupKey_some_mem _ _ _ hveq)
  refine ⟨by rw [hveq]; simp, ?_⟩
  rw [hveq]
  intro hc
  have := Option.some.inj hc
  omega

/-- Witness for C7 on a one-row dataframe over the empty remote store. -/
theorem c7_lookup_unreachable_skip_witness :
    wellFormedRemote remoteEmpty ∧ rowGaz ∈ [rowGaz] ∧
    truthy (rowKey rowGaz).1 = true ∧
    truthy (nan_to_none rowGaz.holding) = true ∧
    (lookupKey (pass1 remoteEmpty [rowGaz]).stocks (rowKey rowGaz) ≠ Option.none ∧
      lookupKey (pass1 remoteEmpty [rowGaz]).stocks (rowKey rowGaz) ≠
        Option.some 0) :=
  ⟨⟨by decide, by simp [remoteEmpty]⟩, by simp, by decide, by decide,
    c7_lookup_unreachable_skip remoteEmpty [rowGaz] rowGaz
      ⟨by decide, by simp [remoteEmpty]⟩ (by simp) (by decide) (by decide)⟩

/-- For every remote stock insert issued by a fold of the stocks loop, the
record either was already in the log, or the key was absent from the dict
and the record is exactly the one built from the first key-matching valid
row of the remaining dataframe. -/
theorem c8_aux (df : List Row) (s : S1) (d : StockData)
    (h : SEvent.insert d ∈ (df.foldl step1 s).log) :
    SEvent.insert d ∈ s.log ∨
    (lookupKey s.stocks (d.ticker, d.exchange) = Option.none ∧
      (firstValidFor (d.ticker, d.exchange) df).map stockDataOf =
        Option.some d) := by
  induction df generalizing s with
  | nil => exact Or.inl h
  | cons r rest ih =>
    have h' : SEvent.insert d ∈ (rest.foldl step1 (step1 s r)).log := h
    rcases ih (step1 s r) h' with hmem | ⟨hnone, hfirst⟩
    · rcases step1_characterization s r with ⟨he, _⟩ | ⟨hv, hl, ⟨i, hf, he⟩ | ⟨hf, he⟩⟩
      · rw [he] at hmem; exact Or.inl hmem
      · rw [he] at hmem
        simp only [List.mem_append, List.mem_singleton] at hmem
        rcases hmem with hmem | hmem
        · exact Or.inl hmem
        · cases hmem
      · rw [he] at hmem
        simp only [List.mem_append, List.mem_cons, List.not_mem_nil,
          or_false] at hmem
        rcases hmem with hmem | hmem | hmem
        · exact Or.inl hmem
        · cases hmem
        · have hd : d = stockDataOf r := by
            injection hmem
          subst hd
          have hkey : ((stockDataOf r).ticker, (stockDataOf r).exchange) =
              rowKey r := rfl
          refine Or.inr ⟨?_, ?_⟩
          · rw [hkey]
            exact option_eq_none_of_isSome_false _ hl
          · unfold firstValidFor
            rw [hkey]
            simp [List.find?, hv]
    · have hmono : lookupKey s.stocks (d.ticker, d.exchange) = Option.none := by
        cases hm : lookupKey s.stocks (d.ticker, d.exchange) with
        | none => rfl
        | some v =>
          have hs : (lookupKey (step1 s r).stocks (d.ticker, d.exchange)).isSome
              = true := step1_lookup_mono s r _ (by rw [hm]; rfl)
          rw [hnone] at hs; cases hs
      refine Or.inr ⟨hmono, ?_⟩
      unfold firstValidFor at hfirst ⊢
      have hpr : (isValid1 r && decide (rowKey r = (d.ticker, d.exchange)))
          = false := by
        by_cases hvr : isValid1 r = true
        · by_cases hkr : rowKey r = (d.ticker, d.exchange)
          · exfalso
            have hs := step1_self_mem s r hvr
            rw [hkr, hnone] at hs
            cases hs
          · simp [hkr]
        · simp [Bool.not_eq_true] at hvr
          simp [hvr]
      have hstep : List.find?
          (fun row => isValid1 row && decide (rowKey row = (d.ticker, d.exchange)))
          (r :: rest) =
          List.find?
            (fun row => isValid1 row && decide (rowKey row = (d.ticker, d.exchange)))
            rest := by
        simp only [List.find?]
        rw [hpr]
      rw [hstep]
      exact hfirst

/-- Claim C8: every stock record remotely inserted during the stocks loop
carries exactly the data — in particular the name and currency — of the
first row of the dataframe that passes the required-field check and
normalizes to the record's key; later rows with the same key never reach
the insert and so cannot affect the stored data. -/
theorem c8_first_seen (remote0 : Remote) (df : List Row) (d : StockData)
    (h : SEvent.insert d ∈ (pass1 remote0 df).log) :
    (firstValidFor (d.ticker, d.exchange) df).map stockDataOf =
      Option.some d := by
  rcases c8_aux df { stocks := [], remote := remote0, log := [] } d h
    with hmem | ⟨_, hfirst⟩
  · cases hmem
  · exact hfirst

/-- Witness for C8: two rows with the Gazprom key but different names and
currencies; the inserted record is the first row's. -/
theorem c8_first_seen_witness :
    SEvent.insert (stockDataOf rowGaz) ∈ (pass1 remoteEmpty [rowGaz, rowGaz2]).log ∧
    (firstValidFor ((stockDataOf rowGaz).ticker, (stockDataOf rowGaz).exchange)
        [rowGaz, rowGaz2]).map stockDataOf = Option.some (stockDataOf rowGaz) :=
  ⟨by decide,
    c8_first_seen remoteEmpty [rowGaz, rowGaz2] (stockDataOf rowGaz) (by decide)⟩

/-! ### Lemmas about the Step 2 loop -/

/-- A row for which the trades loop's required-field check fires is skipped:
the loop state is returned unchanged and nothing is inserted. -/
theorem step2_skip_of_cond (stocks : List (Key × Nat)) (s : S2) (row : Row)
    (h : (!truthy (splitTickerVal row.ticker).1 || !truthy (nan_to_none row.holding) ||
          !truthy (nan_to_none row.type) || !truthy (nan_to_none row.date) ||
          !truthy (nan_to_none row.quantity)) = true) :
    step2 stocks s row = Except.ok s := by
  simp only [step2, h, if_true]

/-! ### Claims C2, C3, C9, C10: the trades loop -/

/-- Claim C2, counterexample: in the full pipeline over a one-row dataframe
all five required fields of the row are present (none is null), yet no
Trade insertion occurs, because the Quantity value 0 fails the truthiness
test of the required-field check. -/
theorem c2_trade_insert_cex :
    insertedTrades (runImport remoteEmpty [rowQ0]) = Option.some [] ∧
    rowQ0.ticker ≠ Val.none ∧ rowQ0.holding ≠ Val.none ∧
    rowQ0.type ≠ Val.none ∧ rowQ0.date ≠ Val.none ∧
    rowQ0.quantity ≠ Val.none := by
  refine ⟨by decide, by decide, by decide, by decide, by decide, by decide⟩

/-- Claim C2 (amended): for every row whose ticker, name, trade_type,
trade_date and quantity are all present and truthy (non-null, nonempty as
strings, nonzero as numbers), which resolves to a nonzero stock identifier,
and whose trade_date is a parsable day-first date, exactly one Trade
insertion occurs: the record is appended with trade_type uppercased and
trade_date re-emitted as zero-padded year-month-day. -/
theorem c2_trade_insert (stocks : List (Key × Nat)) (s : S2) (row : Row)
    (id : Nat) (ts ds : Str) (d m y : Nat)
    (ht : truthy (splitTickerVal row.ticker).1 = true)
    (hn : truthy (nan_to_none row.holding) = true)
    (htyT : truthy (nan_to_none row.type) = true)
    (hdtT : truthy (nan_to_none row.date) = true)
    (hq : truthy (nan_to_none row.quantity) = true)
    (hty : nan_to_none row.type = Val.str ts)
    (hd : nan_to_none row.date = Val.str ds)
    (hds : parseDayFirst ds = Option.some (d, m, y))
    (hlook : lookupKey stocks (rowKey row) = Option.some id)
    (hid : id ≠ 0) :
    step2 stocks s row = Except.ok { inserts := s.inserts ++ [{
      stock_id := id
      trade_type := Val.str (ts.map Char.toUpper)
      trade_date := formatYMD y m d
      quantity := nan_to_none row.quantity
      price_per_share := nan_to_none row.price
      price_currency := nan_to_none row.holdingCurrency
      gbp_value := nan_to_none row.valueGBP
      fx_rate := nan_to_none row.exchangeRate
      fee := nan_to_none row.fee
      fee_currency := nan_to_none row.feeCurrency
      local_value := nan_to_none row.localValue
      currency_pair := nan_to_none row.currencyPair
      notes := [] }] } := by
  have hcond : (!truthy (splitTickerVal row.ticker).1 ||
      !truthy (nan_to_none row.holding) || !truthy (nan_to_none row.type) ||
      !truthy (nan_to_none row.date) || !truthy (nan_to_none row.quantity))
      = false := by
    rw [ht, hn, htyT, hdtT, hq]
    rfl
  simp only [rowKey] at hlook
  simp only [step2, hcond, Bool.false_eq_true, if_false, hlook]
  rw [if_neg hid]
  simp only [hd, toDatetimeFmt, hds, Option.map_some']
  simp [upperVal, pyUpper, hty]

/-- Witness for C2's amended theorem at the spec's Gazprom scenario:
Type "buy" becomes "BUY" and Date "05/03/2020" becomes "2020-03-05". -/
theorem c2_trade_insert_witness :
    step2 [(rowKey rowGaz, 1)] { inserts := [] } rowGaz =
      Except.ok { inserts := [] ++ [{
        stock_id := 1
        trade_type := Val.str ((chars "buy").map Char.toUpper)
        trade_date := formatYMD 2020 3 5
        quantity := nan_to_none rowGaz.quantity
        price_per_share := nan_to_none rowGaz.price
        price_currency := nan_to_none rowGaz.holdingCurrency
        gbp_value := nan_to_none rowGaz.valueGBP
        fx_rate := nan_to_none rowGaz.exchangeRate
        fee := nan_to_none rowGaz.fee
        fee_currency := nan_to_none rowGaz.feeCurrency
        local_value := nan_to_none rowGaz.localValue
        currency_pair := nan_to_none rowGaz.currencyPair
        notes := [] }] } :=
  c2_trade_insert [(rowKey rowGaz, 1)] { inserts := [] } rowGaz 1
    (chars "buy") (chars "05/03/2020") 5 3 2020
    (by decide) (by decide) (by decide) (by decide) (by decide)
    (by decide) (by decide) (by decide) (by decide) (by decide)

/-- Claim C3: a row whose Ticker cell or whose Holding (name) cell is null
is skipped by both passes: the stocks loop leaves its whole state (dict,
remote store, log) unchanged, and the trades loop inserts nothing. -/
theorem c3_skip_missing (s : S1) (stocks : List (Key × Nat)) (s2 : S2)
    (row : Row) (h : row.ticker = Val.none ∨ row.holding = Val.none) :
    step1 s row = s ∧ step2 stocks s2 row = Except.ok s2 := by
  have hv : isValid1 row = false := by
    rcases h with h | h <;>
      simp [isValid1, rowKey, splitTickerVal, h, truthy, nan_to_none]
  constructor
  · rcases step1_characterization s row with ⟨he, _⟩ | ⟨hv', _, _⟩
    · exact he
    · rw [hv] at hv'; cases hv'
  · apply step2_skip_of_cond
    rcases h with h | h <;> simp [h, splitTickerVal, truthy, nan_to_none]

/-- Witness for C3 at a row with a null Holding cell. -/
theorem c3_skip_missing_witness :
    (rowNoName.ticker = Val.none ∨ rowNoName.holding = Val.none) ∧
    (step1 ⟨[], remoteEmpty, []⟩ rowNoName = ⟨[], remoteEmpty, []⟩ ∧
      step2 [] { inserts := [] } rowNoName = Except.ok { inserts := [] }) :=
  ⟨Or.inr rfl,
    c3_skip_missing ⟨[], remoteEmpty, []⟩ [] { inserts := [] } rowNoName
      (Or.inr rfl)⟩

/-- Claim C9: a row whose Quantity is present but equal to the number 0 —
and likewise one whose required Type field is a present but empty string —
is silently skipped by the trades loop with no Trade inserted, because the
required-field check tests truthiness rather than presence. -/
theorem c9_falsy_skip (stocks : List (Key × Nat)) (s : S2) (row : Row)
    (h : row.quantity = Val.num 0 ∨ row.type = Val.str []) :
    step2 stocks s row = Except.ok s := by
  apply step2_skip_of_cond
  rcases h with h | h <;> simp [h, truthy, nan_to_none]

/-- Witness for C9 at the zero-quantity row. -/
theorem c9_falsy_skip_witness :
    (rowQ0.quantity = Val.num 0 ∨ rowQ0.type = Val.str []) ∧
    step2 [] { inserts := [] } rowQ0 = Except.ok { inserts := [] } :=
  ⟨Or.inl rfl, c9_falsy_skip [] { inserts := [] } rowQ0 (Or.inl rfl)⟩

/-- Claim C10: every trade record the trades loop inserts for a row takes
its price_currency from the null-coalesced Holding Currency cell of that
row — the same cell that supplies the currency of the row's `stock_data`
record in the stocks loop. -/
theorem c10_price_currency (stocks : List (Key × Nat)) (s : S2) (row : Row)
    (s' : S2) (td : TradeData) (h : step2 stocks s row = Except.ok s')
    (htd : td ∈ s'.inserts) (hnew : td ∉ s.inserts) :
    td.price_currency = nan_to_none row.holdingCurrency ∧
    td.price_currency = (stockDataOf row).currency := by
  simp only [step2] at h
  split at h
  · have hs : s = s' := Except.ok.inj h
    exact absurd (hs ▸ htd) hnew
  · split at h
    · have hs : s = s' := Except.ok.inj h
      exact absurd (hs ▸ htd) hnew
    · split at h
      · have hs : s = s' := Except.ok.inj h
        exact absurd (hs ▸ htd) hnew
      · split at h
        · cases h
        · have hs := Except.ok.inj h
          rw [← hs] at htd
          simp only [List.mem_append, List.mem_singleton] at htd
          rcases htd with htd | htd
          · exact absurd htd hnew
          · rw [htd]
            exact ⟨rfl, rfl⟩

/-- Witness for C10 at the Gazprom row. -/
theorem c10_price_currency_witness :
    step2 [(rowKey rowGaz, 1)] { inserts := [] } rowGaz =
      Except.ok { inserts := [tdGaz] } ∧
    tdGaz ∈ ({ inserts := [tdGaz] } : S2).inserts ∧
    tdGaz ∉ ({ inserts := [] } : S2).inserts ∧
    (tdGaz.price_currency = nan_to_none rowGaz.holdingCurrency ∧
      tdGaz.price_currency = (stockDataOf rowGaz).currency) :=
  ⟨by rfl, by simp, by simp,
    c10_price_currency [(rowKey rowGaz, 1)] { inserts := [] } rowGaz
      { inserts := [tdGaz] } tdGaz (by rfl) (by simp) (by simp)⟩

end ImportPipeline
